import Mathlib

/-!
# PI9696 audio-recorder control core: a shallow embedding

This file embeds the event-driven state machine of `main.go`, the debounce
logic of `hardware/encoder.go` and `hardware/buttons.go`, the capacity-label
computation (`getUSBSize` / `roundToPowerOfTwo`), the cancellable copy task
(`startCopyOperation`), and the display progress-bar primitive
(`TTFDisplay.DrawProgressBar` with `SetPixel`), and proves the spec's claims
about them.

Modelling conventions:
* Go `int` fields are embedded as `Int` (machine overflow is irrelevant at the
  value ranges involved; no arithmetic here approaches 2^63).
* Wall-clock time is embedded as a millisecond counter `Nat` supplied by the
  environment; `time.Time` subtraction becomes `Nat` subtraction.
* External effects (process spawn success, the `*.wav` directory listing,
  destructive shell commands) are embedded as an `Env` record of inputs and an
  emitted list of `SysAction` outputs.
* The Go `map[string]bool` `filesToCopy` is embedded as an association list;
  Go map iteration order is unspecified, and no claim depends on it.
* `float64` arithmetic in `int(float64(w) * progress)` and in
  `roundToPowerOfTwo` (`math.Log2` / `math.Round` / `math.Pow`) is embedded as
  exact rational / real-log arithmetic: `int(...)` truncation toward zero
  coincides in effect with `Int.floor` here (a negative fill width draws
  nothing either way), and `round(log2 v)` for an integer `v > 0` is the least
  `k` with `v^2 < 2^(2k+1)` (no tie is possible since `2^(2k+1)` is never a
  perfect square).
* The copy task's progress write `int(float64(i+1) / float64(total) * 100)`
  is embedded with genuine IEEE-754 binary64 semantics: every double is
  carried as its exact rational value, and each operation (int→double
  conversion, division, multiplication) applies `rn53`, rounding the exact
  result to 53 significant bits, ties to even — the IEEE definition of these
  operations. The model leaves the exponent unbounded, which agrees with
  binary64 on this pipeline since every intermediate lies in
  `[2^-63, 101]` — far inside the normal range, so no overflow, underflow or
  subnormal behavior can arise; the final `int(...)` truncation toward zero
  is `Int.floor` on these nonnegative values.
-/

namespace PI9696

/-- `AppState` from `main.go` (the `StateIdle .. StateConfirm` constants). -/
inductive AppState where
  | idle
  | recording
  | settings
  | copyFiles
  | copying
  | systemOptions
  | networkInfo
  | confirm
deriving DecidableEq, Repr

/-- `MenuMode` from `main.go` (`SettingsMenu .. RestartConfirm`). -/
inductive MenuMode where
  | settingsMenu
  | copyFilesMenu
  | systemOptionsMenu
  | networkInfoMenu
  | deleteConfirm
  | formatConfirm
  | shutdownConfirm
  | restartConfirm
deriving DecidableEq, Repr

/-- `ConfirmOption` from `main.go` (`ConfirmNo` / `ConfirmYes`). -/
inductive ConfirmOpt where
  | no
  | yes
deriving DecidableEq, Repr

/-- `hardware.ButtonType` from `hardware/buttons.go`. -/
inductive BType where
  | record
  | stop
  | play
deriving DecidableEq, Repr

/-- The mutable globals of `main.go` that the event handlers read or write.
`recordStart` and `recordingFile` are written by `startRecording` and read
only by the render path, never by an event handler. -/
structure St where
  sampleRateIdx    : Int
  channelCount     : Int
  isRecording      : Bool
  isCopying        : Bool
  recordStart      : Nat
  recordingFile    : Option String
  currentState     : AppState
  menuMode         : MenuMode
  selectedMenu     : Int
  menuScrollOffset : Int
  confirmOption    : ConfirmOpt
  usbMounted       : Bool
  allFiles         : List String
  filesToCopy      : List (String × Bool)
  copyProgress     : Nat
deriving DecidableEq, Repr

/-- External inputs consumed by one event dispatch: the sorted `*.wav`
base-name listing of `RecordPath` (produced by `filepath.Glob` plus
`sort.Strings` in `loadFilesToCopy`), whether `infernoPipeCmd.Start()`
succeeds, and the current timestamp (abstracting the formatted
`time.Now()` string of `startRecording`). -/
structure Env where
  wavFiles : List String
  spawnOk  : Bool
  now      : Nat
deriving Repr

/-- A hardware event delivered to the controller: the encoder callbacks
`onEncoderRotate` / `onEncoderClick` / `onEncoderHold` and the button
callback `onButtonPress`. -/
inductive Event where
  | rotate (dir : Int)
  | click
  | hold
  | buttonPress (b : BType)
deriving DecidableEq, Repr

/-- A destructive or system effect executed by `handleConfirmClick`:
`deleteAllRecordings()`, `formatUSB()` (which no-ops unless a volume is
mounted), `sudo shutdown`, `sudo reboot`. -/
inductive SysAction where
  | deleteAll
  | format
  | shutdown
  | restart
deriving DecidableEq, Repr

/-- `sampleRates` from `main.go`. -/
def sampleRates : List Int := [44100, 48000, 96000, 192000]

/-- `MaxChannelCount` from `main.go`. -/
def MaxChannelCount : Int := 128

/-- `adjustSampleRate` from `main.go`: wraps the index past either end of
`sampleRates`. -/
def adjustSampleRate (dir : Int) (st : St) : St :=
  let idx := st.sampleRateIdx + dir
  if idx < 0 then { st with sampleRateIdx := (sampleRates.length : Int) - 1 }
  else if idx ≥ (sampleRates.length : Int) then { st with sampleRateIdx := 0 }
  else { st with sampleRateIdx := idx }

/-- `adjustChannelCount` from `main.go`: clamps to `[1, MaxChannelCount]`. -/
def adjustChannelCount (dir : Int) (st : St) : St :=
  let c := st.channelCount + dir
  if c < 1 then { st with channelCount := 1 }
  else if c > MaxChannelCount then { st with channelCount := MaxChannelCount }
  else { st with channelCount := c }

/-- The `maxItems` computation of `navigateMenu` in `main.go`; the Go
`switch` leaves `maxItems` zero in any other state. -/
def menuItemCount (st : St) : Int :=
  match st.currentState with
  | .settings => 6
  | .copyFiles => (st.allFiles.length : Int) + 3
  | .systemOptions => 5
  | _ => 0

/-- `navigateMenu` from `main.go`: move the cursor by `dir`, wrapping past
either end. -/
def navigateMenu (dir : Int) (st : St) : St :=
  let maxItems := menuItemCount st
  let sel := st.selectedMenu + dir
  if sel < 0 then { st with selectedMenu := maxItems - 1 }
  else if sel ≥ maxItems then { st with selectedMenu := 0 }
  else { st with selectedMenu := sel }

/-- `onEncoderRotate` from `main.go`. -/
def onEncoderRotate (dir : Int) (st : St) : St :=
  match st.currentState with
  | .idle => st
  | .settings =>
      if st.selectedMenu = 0 then adjustSampleRate dir st
      else if st.selectedMenu = 1 then adjustChannelCount dir st
      else navigateMenu dir st
  | .copyFiles => navigateMenu dir st
  | .systemOptions => navigateMenu dir st
  | .confirm =>
      if st.confirmOption = .no then { st with confirmOption := .yes }
      else { st with confirmOption := .no }
  | _ => st

/-- `loadFilesToCopy` from `main.go`: rebuild `allFiles` from the sorted
directory listing and default-select every file. -/
def loadFilesToCopy (env : Env) (st : St) : St :=
  { st with allFiles := env.wavFiles,
            filesToCopy := env.wavFiles.map (fun f => (f, true)) }

/-- `handleSettingsClick` from `main.go`. -/
def handleSettingsClick (env : Env) (st : St) : St :=
  if st.selectedMenu = 0 ∨ st.selectedMenu = 1 then st
  else if st.selectedMenu = 2 then
    if st.usbMounted then
      { loadFilesToCopy env st with
          currentState := .copyFiles, selectedMenu := 0, menuScrollOffset := 0 }
    else st
  else if st.selectedMenu = 3 then
    { st with currentState := .systemOptions, selectedMenu := 0, menuScrollOffset := 0 }
  else if st.selectedMenu = 4 then
    { st with currentState := .networkInfo, selectedMenu := 0, menuScrollOffset := 0 }
  else if st.selectedMenu = 5 then
    { st with currentState := .idle, menuScrollOffset := 0 }
  else st

/-- The synchronous part of `startCopyOperation` from `main.go` (the spawned
copy goroutine itself is `copyRun` below): gated on `usbMounted`, enters
`Copying` with progress reset to 0. -/
def startCopyOperation (st : St) : St :=
  if !st.usbMounted then st
  else { st with currentState := .copying, isCopying := true, copyProgress := 0 }

/-- `handleCopyFilesClick` from `main.go`: item 0 starts the copy, item 1
selects all, item 2 deselects all, items ≥ 3 toggle one file. -/
def handleCopyFilesClick (st : St) : St :=
  if st.selectedMenu = 0 then startCopyOperation st
  else if st.selectedMenu = 1 then
    { st with filesToCopy := st.filesToCopy.map (fun fb => (fb.1, true)) }
  else if st.selectedMenu = 2 then
    { st with filesToCopy := st.filesToCopy.map (fun fb => (fb.1, false)) }
  else if 3 ≤ st.selectedMenu ∧ st.selectedMenu - 3 < (st.allFiles.length : Int) then
    let file := st.allFiles.getD (st.selectedMenu - 3).toNat ""
    { st with filesToCopy :=
        st.filesToCopy.map (fun fb => if fb.1 = file then (fb.1, !fb.2) else fb) }
  else st

/-- `handleSystemOptionsClick` from `main.go`: each destructive/system item
sets a `MenuMode` and enters `Confirm` with the option forced to `No`;
`Format USB` is additionally gated on `usbMounted`; `Exit` returns to
`Settings`. -/
def handleSystemOptionsClick (st : St) : St :=
  if st.selectedMenu = 0 then
    { st with menuMode := .deleteConfirm, currentState := .confirm, confirmOption := .no }
  else if st.selectedMenu = 1 then
    if st.usbMounted then
      { st with menuMode := .formatConfirm, currentState := .confirm, confirmOption := .no }
    else st
  else if st.selectedMenu = 2 then
    { st with menuMode := .shutdownConfirm, currentState := .confirm, confirmOption := .no }
  else if st.selectedMenu = 3 then
    { st with menuMode := .restartConfirm, currentState := .confirm, confirmOption := .no }
  else if st.selectedMenu = 4 then
    { st with currentState := .settings, selectedMenu := 0, menuScrollOffset := 0 }
  else st

/-- `handleConfirmClick` from `main.go`: executes the pending action iff
`ConfirmYes`, then returns to `Idle` unconditionally. `formatUSB()` itself
begins with `if !usbMounted { return }`, so the format effect is emitted only
when a volume is mounted. -/
def handleConfirmClick (st : St) : St × List SysAction :=
  let acts : List SysAction :=
    if st.confirmOption = .yes then
      match st.menuMode with
      | .deleteConfirm => [.deleteAll]
      | .formatConfirm => if st.usbMounted then [.format] else []
      | .shutdownConfirm => [.shutdown]
      | .restartConfirm => [.restart]
      | _ => []
    else []
  ({ st with currentState := .idle }, acts)

/-- `onEncoderClick` from `main.go`. -/
def onEncoderClick (env : Env) (st : St) : St × List SysAction :=
  match st.currentState with
  | .idle =>
      if !st.isRecording then
        ({ st with currentState := .settings, selectedMenu := 0 }, [])
      else (st, [])
  | .settings => (handleSettingsClick env st, [])
  | .copyFiles => (handleCopyFilesClick st, [])
  | .systemOptions => (handleSystemOptionsClick st, [])
  | .confirm => handleConfirmClick st
  | _ => (st, [])

/-- `onEncoderHold` from `main.go`: from `Copying` it clears the copying flag
(cancellation request) and returns to `Idle`; from any other state except
`Idle` and `Recording` it returns to `Idle` and resets cursor and scroll. -/
def onEncoderHold (st : St) : St :=
  if st.currentState = .copying then
    { st with isCopying := false, currentState := .idle }
  else if st.currentState ≠ .idle ∧ st.currentState ≠ .recording then
    { st with currentState := .idle, selectedMenu := 0, menuScrollOffset := 0 }
  else st

/-- `startRecording` from `main.go`: records the start timestamp and target
filename, then spawns the capture process; only on spawn success does it set
`isRecording` and enter `Recording`. -/
def startRecording (env : Env) (st : St) : St :=
  let rate := sampleRates.getD st.sampleRateIdx.toNat 0
  let file := "/rec/recording_" ++ toString env.now ++ "_ch" ++
      toString st.channelCount ++ "_" ++ toString (rate / 1000) ++ "kHz.wav"
  let st' := { st with recordStart := env.now, recordingFile := some file }
  if env.spawnOk then
    { st' with isRecording := true, currentState := .recording }
  else st'

/-- `stopRecording` from `main.go`: terminates the capture process (external),
clears `isRecording`, returns to `Idle`. -/
def stopRecording (st : St) : St :=
  { st with isRecording := false, currentState := .idle }

/-- `onButtonPress` from `main.go`: Record is honored only while `Idle` and
not recording; Stop only while recording; Play does nothing. -/
def onButtonPress (env : Env) (b : BType) (st : St) : St :=
  match b with
  | .record =>
      if st.currentState = .idle ∧ !st.isRecording then startRecording env st
      else st
  | .stop => if st.isRecording then stopRecording st else st
  | .play => st

/-- One event dispatch of the controller, pairing the successor state with
the destructive/system actions executed during the dispatch. -/
def step (env : Env) (st : St) (e : Event) : St × List SysAction :=
  match e with
  | .rotate dir => (onEncoderRotate dir st, [])
  | .click => onEncoderClick env st
  | .hold => (onEncoderHold st, [])
  | .buttonPress b => (onButtonPress env b st, [])

/-! ## Input debounce (`hardware/encoder.go`, `hardware/buttons.go`) -/

/-- The button-tracking fields of `hardware.Encoder`. -/
structure EncBtn where
  buttonDown : Bool
  buttonTime : Nat
deriving DecidableEq, Repr

/-- An event emitted by the encoder button sampler. -/
inductive EncEvent where
  | click
  | hold
deriving DecidableEq, Repr

/-- `Encoder.readButton` from `hardware/encoder.go`, one 1 ms sample:
`now` is the sample time in milliseconds and `pressedLevel` the active-low
line reading. A release classifies the hold duration: `≥ 3000 ms` emits
`Hold`, `≥ 50 ms` emits `Click`, anything shorter is dropped as bounce. -/
def encReadButton (s : EncBtn) (now : Nat) (pressedLevel : Bool) :
    EncBtn × Option EncEvent :=
  if pressedLevel ∧ !s.buttonDown then
    ({ buttonDown := true, buttonTime := now }, none)
  else if !pressedLevel ∧ s.buttonDown then
    let holdTime := now - s.buttonTime
    ({ s with buttonDown := false },
      if holdTime ≥ 3000 then some .hold
      else if holdTime ≥ 50 then some .click
      else none)
  else (s, none)

/-- The per-button state of `hardware.Button` in `hardware/buttons.go`. -/
structure MBtn where
  pressed   : Bool
  lastPress : Nat
deriving DecidableEq, Repr

/-- `ButtonManager.readButton` from `hardware/buttons.go`, one 5 ms sample.
The returned `Bool` records whether the button callback fired during this
sample. The callback fires on the press edge, provided more than 50 ms have
passed since the previous registered press; the release edge only clears the
pressed flag. -/
def mReadButton (s : MBtn) (now : Nat) (level : Bool) : MBtn × Bool :=
  if level ∧ !s.pressed then
    if now - s.lastPress > 50 then ({ pressed := true, lastPress := now }, true)
    else (s, false)
  else if !level ∧ s.pressed then
    ({ s with pressed := false }, false)
  else (s, false)

/-! ## The copy task (`startCopyOperation`'s goroutine in `main.go`) -/

/-- The selected-file snapshot the copy goroutine builds from `filesToCopy`
(Go map iteration order is unspecified; no claim depends on the order). -/
def selectedFiles (st : St) : List String :=
  (st.filesToCopy.filter (fun fb => fb.2)).map (fun fb => fb.1)

/-- Round a rational to the nearest integer, ties to even — the IEEE-754
default rounding applied to a value already scaled into integer position. -/
def rheZ (s : ℚ) : ℤ :=
  if Int.fract s < 1 / 2 then ⌊s⌋
  else if 1 / 2 < Int.fract s then ⌊s⌋ + 1
  else if ⌊s⌋ % 2 = 0 then ⌊s⌋ else ⌊s⌋ + 1

/-- Round a positive rational to 53 significant bits, nearest, ties to even:
the exact value an IEEE-754 binary64 operation returns when its exact result
is `q` (valid whenever `q` is inside the normal range, as every value in
this program's progress pipeline is; see the header). `Int.log 2 q` is the
binade exponent `e` with `2^e ≤ q < 2^(e+1)`. -/
def rn53 (q : ℚ) : ℚ :=
  if q ≤ 0 then 0
  else (rheZ (q * 2 ^ (52 - Int.log 2 q)) : ℚ) * 2 ^ (Int.log 2 q - 52)

/-- The progress value `int(float64(completed) / float64(total) * 100)`
written by the copy goroutine after `completed` of `total` files, under
IEEE-754 binary64 semantics: both counts are converted to double (`rn53` of
the integer), the division and the multiplication by 100 each round their
exact result (`rn53` again), and the `int(...)` conversion truncates — which
on these nonnegative values is `Int.floor`. -/
def goProgress (completed total : Nat) : Nat :=
  (⌊rn53 (rn53 (rn53 (completed : ℚ) / rn53 (total : ℚ)) * 100)⌋).toNat

/-- The copy loop of the goroutine in `startCopyOperation`: before file `i`
the shared `isCopying` flag is checked (`cancel i = true` means it was
observed cleared, i.e. cancellation was requested); after copying file `i`
the progress `int(float64(i+1) / float64(total) * 100)` — the binary64
evaluation `goProgress (i+1) total` — is written. Returns the list of
successive `copyProgress` writes. `remaining` is the loop fuel `total - i`. -/
def copyLoop (total : Nat) (cancel : Nat → Bool) :
    (remaining : Nat) → (i : Nat) → List Nat
  | 0, _ => []
  | r + 1, i =>
      if cancel i then []
      else goProgress (i + 1) total :: copyLoop total cancel r (i + 1)

/-- The whole copy goroutine body: an empty selection ends the run at once;
otherwise the loop runs, and in every case the run ends back in `Idle` with
the copying flag cleared. Returns the final state, the trace of
`copyProgress` writes, and the list of files attempted. -/
def copyRun (sel : List String) (cancel : Nat → Bool) (st : St) :
    St × List Nat × List String :=
  if sel.length = 0 then
    ({ st with isCopying := false, currentState := .idle }, [], [])
  else
    let writes := copyLoop sel.length cancel sel.length 0
    ({ st with isCopying := false, currentState := .idle,
               copyProgress := writes.getLastD st.copyProgress },
      writes, sel.take writes.length)

/-! ## Capacity label (`getUSBSize` / `roundToPowerOfTwo` in `main.go`) -/

/-- Ascending search for the least `k` with `v² < 2^(2k+1)`; `fuel` bounds
the recursion. -/
def roundLog2Go (v2 : Nat) : Nat → Nat → Nat
  | 0, k => k
  | fuel + 1, k => if v2 < 2 ^ (2 * k + 1) then k else roundLog2Go v2 fuel (k + 1)

/-- `roundToPowerOfTwo` from `main.go`:
`int(math.Pow(2, math.Round(math.Log2(value))))`. For an integer `v > 0`,
`round(log2 v) = k` exactly when `2^(k - 1/2) < v < 2^(k + 1/2)`, i.e. when
`k` is the least exponent with `v² < 2^(2k+1)` (no integer `v` sits on a
half-way point, since `2^(2k+1)` is never a perfect square), so the
floating-point expression is embedded exactly. -/
def roundToPowerOfTwo (value : Int) : Int :=
  if value ≤ 0 then 1
  else (2 : Int) ^ roundLog2Go (value.toNat * value.toNat) value.toNat 0

/-- `getUSBSize` from `main.go`, as a function of the raw byte count
reported by `syscall.Statfs` (`Blocks * Bsize`). -/
def getUSBSize (totalBytes : Nat) : String :=
  if totalBytes < 1024 * 1024 * 1024 then
    toString (roundToPowerOfTwo ((totalBytes / (1024 * 1024) : Nat) : Int)) ++ "mb"
  else if totalBytes < 1024 * 1024 * 1024 * 1024 then
    toString (roundToPowerOfTwo ((totalBytes / (1024 * 1024 * 1024) : Nat) : Int)) ++ "GB"
  else
    toString (roundToPowerOfTwo ((totalBytes / (1024 * 1024 * 1024 * 1024) : Nat) : Int)) ++ "TB"

/-! ## Display primitives (`TTFDisplay` in the hardware package) -/

/-- The framebuffer, one 4-bit brightness per coordinate; coordinates are Go
`int`s. -/
def FB : Type := Int → Int → Nat

/-- `TTFDisplay.SetPixel`: out-of-range coordinates are silently ignored;
the stored value is the low nibble (`brightness & 0x0F`). -/
def SetPixel (fb : FB) (x y : Int) (brightness : Nat) : FB :=
  if x < 0 ∨ x ≥ 256 ∨ y < 0 ∨ y ≥ 64 then fb
  else fun a c => if a = x ∧ c = y then brightness % 16 else fb a c

/-- A horizontal run of `SetPixel` writes (`for px := x; px < x+w; px++`). -/
def fillRow : FB → Int → Int → Nat → Nat → FB
  | fb, _, _, 0, _ => fb
  | fb, x, y, w + 1, b => fillRow (SetPixel fb x y b) (x + 1) y w b

/-- A vertical run of `SetPixel` writes (`for py := y; py < y+h; py++`). -/
def fillCol : FB → Int → Int → Nat → Nat → FB
  | fb, _, _, 0, _ => fb
  | fb, x, y, h + 1, b => fillCol (SetPixel fb x y b) x (y + 1) h b

/-- The nested loop `for py … for px …` writing one brightness over a
`w × h` region, rows top to bottom. -/
def fillRect : FB → Int → Int → Nat → Nat → Nat → FB
  | fb, _, _, _, 0, _ => fb
  | fb, x, y, w, h + 1, b => fillRect (fillRow fb x y w b) x (y + 1) w h b

/-- `TTFDisplay.DrawProgressBar` from the hardware package: dim (2)
background over the whole rectangle, bright (15) fill of width
`int(float64(width) * progress)` — embedded as `⌊width * progress⌋`, which
draws the same pixels (a negative result draws nothing either way) — then a
1-pixel border (8). The Go code writes the top and bottom border rows inside
one loop and the left and right columns inside another; the writes are
reordered here into four runs, which touch the same cells with the same
values. The fraction is **not** clamped before use. -/
def DrawProgressBar (fb : FB) (x y : Int) (width height : Nat) (progress : ℚ) : FB :=
  let fb1 := fillRect fb x y width height 2
  let fillWidth : Int := ⌊(width : ℚ) * progress⌋
  let fb2 := fillRect fb1 x y fillWidth.toNat height 15
  let fb3 := fillRow fb2 x y width 8
  let fb4 := fillRow fb3 x (y + (height : Int) - 1) width 8
  let fb5 := fillCol fb4 x y height 8
  fillCol fb5 (x + (width : Int) - 1) y height 8

/-- `FiraCodeManager.DrawProgressBar`'s geometry: a 256×8 bar at (0, 32),
fed `progress / 100`; it performs no clamping either. -/
def FCDrawProgressBar (fb : FB) (progress : ℚ) : FB :=
  DrawProgressBar fb ((256 - 32 * 8) / 2) 32 (32 * 8) 8 (progress / 100)

/-- The all-dark framebuffer (the display buffer after `Clear()`). -/
def fb0 : FB := fun _ _ => 0

/-- The initial values of the `main.go` globals. -/
def initSt : St :=
  { sampleRateIdx := 1
    channelCount := 2
    isRecording := false
    isCopying := false
    recordStart := 0
    recordingFile := none
    currentState := .idle
    menuMode := .settingsMenu
    selectedMenu := 0
    menuScrollOffset := 0
    confirmOption := .no
    usbMounted := false
    allFiles := []
    filesToCopy := []
    copyProgress := 0 }

/-! ## Concrete states and environments used by witnesses -/

/-- An environment with no recordings on disk and a succeeding spawn. -/
def env0 : Env := { wavFiles := [], spawnOk := true, now := 0 }

/-- An environment whose capture-process spawn fails. -/
def envFail : Env := { wavFiles := [], spawnOk := false, now := 7 }

/-- A state sitting in the Settings menu with a nonzero cursor and scroll. -/
def stSettings : St :=
  { initSt with currentState := .settings, selectedMenu := 3, menuScrollOffset := 1 }

/-- A state in the middle of a copy with nonzero cursor and scroll. -/
def stCopyingCex : St :=
  { initSt with currentState := .copying, isCopying := true,
                selectedMenu := 1, menuScrollOffset := 1 }

/-- A state in `Recording` (with the matching `isRecording` flag). -/
def stRecording : St :=
  { initSt with currentState := .recording, isRecording := true }

/-- A state in the System Options menu with the cursor on `Exit`. -/
def stSys : St := { initSt with currentState := .systemOptions, selectedMenu := 4 }

/-! ## Helper lemmas on the handlers -/

/-- Rotation never changes the active state variant. -/
theorem onEncoderRotate_currentState (d : Int) (st : St) :
    (onEncoderRotate d st).currentState = st.currentState := by
  cases hc : st.currentState <;>
    simp only [onEncoderRotate, hc, adjustSampleRate, adjustChannelCount, navigateMenu] <;>
    first
      | rfl
      | (split_ifs <;> rfl)

/-- Rotation never changes the file list. -/
theorem onEncoderRotate_allFiles (d : Int) (st : St) :
    (onEncoderRotate d st).allFiles = st.allFiles := by
  cases hc : st.currentState <;>
    simp only [onEncoderRotate, hc, adjustSampleRate, adjustChannelCount, navigateMenu] <;>
    first
      | rfl
      | (split_ifs <;> rfl)

/-- Hold either lands in `Idle` or leaves the state untouched. -/
theorem onEncoderHold_currentState (st : St) :
    (onEncoderHold st).currentState = .idle ∨ onEncoderHold st = st := by
  unfold onEncoderHold
  split_ifs <;> simp

/-- A button press leaves the state variant alone or moves to `Recording`
(successful start) or `Idle` (stop / failed start). -/
theorem onButtonPress_currentState (env : Env) (b : BType) (st : St) :
    (onButtonPress env b st).currentState = st.currentState ∨
    (onButtonPress env b st).currentState = .recording ∨
    (onButtonPress env b st).currentState = .idle := by
  cases b <;> simp only [onButtonPress, startRecording, stopRecording] <;>
    (try split_ifs) <;> simp

/-- Click is the only event that can emit actions, and it does so only from
`Confirm` with `Yes` selected. -/
theorem onEncoderClick_acts (env : Env) (st : St)
    (h : (onEncoderClick env st).2 ≠ []) :
    st.currentState = .confirm ∧ st.confirmOption = .yes := by
  by_cases hc : st.currentState = .confirm
  · refine ⟨hc, ?_⟩
    by_cases hv : st.confirmOption = .yes
    · exact hv
    · exact absurd (by simp [onEncoderClick, hc, handleConfirmClick, hv]) h
  · exfalso
    apply h
    cases hcc : st.currentState <;>
      first
        | exact absurd hcc hc
        | (simp only [onEncoderClick, hcc] <;> (try split_ifs) <;> rfl)

/-! ## C10 -/

/-- C10: handling a `Rotate(±1)` event while the application is in `Idle`,
`Recording`, `NetworkInfo` or `Copying` leaves the entire state unchanged
(every field retains its prior value) and executes no action. -/
theorem rotate_frame (env : Env) (st : St) (d : Int)
    (h : st.currentState = .idle ∨ st.currentState = .recording ∨
         st.currentState = .networkInfo ∨ st.currentState = .copying) :
    step env st (.rotate d) = (st, []) := by
  rcases h with h | h | h | h <;> simp [step, onEncoderRotate, h]

/-- C10 witness: a concrete rotation in `Idle` is a no-op. -/
theorem rotate_frame_witness : step env0 initSt (.rotate 1) = (initSt, []) :=
  rotate_frame env0 initSt 1 (Or.inl rfl)

/-! ## C3 -/

/-- C3, as stated, is false: from `Copying` (a state other than `Recording`),
a Hold event does reach `Idle` but leaves the selection cursor and scroll
offset at their prior nonzero values (`onEncoderHold`'s `Copying` branch does
not reset them). -/
theorem hold_reset_claim_cex :
    stCopyingCex.currentState ≠ .recording ∧
    ¬ ((step env0 stCopyingCex .hold).1.currentState = .idle ∧
       (step env0 stCopyingCex .hold).1.selectedMenu = 0 ∧
       (step env0 stCopyingCex .hold).1.menuScrollOffset = 0) := by
  decide

/-- C3 amended: a Hold from any state other than `Idle`, `Recording` and
`Copying` returns to `Idle` with cursor and scroll reset to 0; from `Copying`
it clears the copying flag (the cancellation request) and returns to `Idle`
leaving cursor and scroll untouched; from `Idle` (and `Recording`) it changes
nothing. -/
theorem hold_back_gesture (env : Env) (st : St) :
    (st.currentState ≠ .idle → st.currentState ≠ .recording →
     st.currentState ≠ .copying →
      step env st .hold =
        ({ st with currentState := .idle, selectedMenu := 0, menuScrollOffset := 0 }, [])) ∧
    (st.currentState = .copying →
      step env st .hold = ({ st with isCopying := false, currentState := .idle }, [])) ∧
    (st.currentState = .idle → step env st .hold = (st, [])) := by
  refine ⟨fun h1 h2 h3 => ?_, fun h => ?_, fun h => ?_⟩ <;>
    simp [step, onEncoderHold, *]

/-- C3 witness: a concrete Hold from the Settings menu with nonzero cursor
and scroll lands in `Idle` with both reset. -/
theorem hold_back_gesture_witness :
    step env0 stSettings .hold =
      ({ stSettings with currentState := .idle, selectedMenu := 0,
                         menuScrollOffset := 0 }, []) :=
  (hold_back_gesture env0 stSettings).1 (by decide) (by decide) (by decide)

/-! ## C2 -/

/-- C2: a destructive or system action is executed only by a Click taken in
`Confirm` with `ConfirmOption = Yes`, and every entry into `Confirm` (from
whichever `SystemOptions` item, i.e. whichever `MenuContext`) forces
`ConfirmOption = No`. -/
theorem destructive_gated_by_confirm :
    (∀ (env : Env) (st : St) (e : Event), (step env st e).2 ≠ [] →
        st.currentState = .confirm ∧ st.confirmOption = .yes ∧ e = .click) ∧
    (∀ (env : Env) (st : St) (e : Event), st.currentState ≠ .confirm →
        (step env st e).1.currentState = .confirm →
        (step env st e).1.confirmOption = .no) := by
  constructor
  · intro env st e h
    cases e with
    | rotate d => simp [step] at h
    | hold => simp [step] at h
    | buttonPress b => simp [step] at h
    | click =>
        have h' := onEncoderClick_acts env st (by simpa [step] using h)
        exact ⟨h'.1, h'.2, rfl⟩
  · intro env st e h1 h2
    cases e with
    | rotate d =>
        rw [show (step env st (.rotate d)).1 = onEncoderRotate d st from rfl,
          onEncoderRotate_currentState] at h2
        exact absurd h2 h1
    | hold =>
        rcases onEncoderHold_currentState st with h | h
        · rw [show (step env st .hold).1 = onEncoderHold st from rfl, h] at h2
          cases h2
        · rw [show (step env st .hold).1 = onEncoderHold st from rfl, h] at h2
          exact absurd h2 h1
    | buttonPress b =>
        rcases onButtonPress_currentState env b st with h | h | h <;>
          rw [show (step env st (.buttonPress b)).1 = onButtonPress env b st from rfl, h] at h2
        · exact absurd h2 h1
        · cases h2
        · cases h2
    | click =>
        cases hc : st.currentState <;>
          simp only [step, onEncoderClick, hc, handleSettingsClick, handleCopyFilesClick,
            handleSystemOptionsClick, handleConfirmClick, startCopyOperation,
            loadFilesToCopy] at h2 ⊢ <;>
          (try split_ifs at h2 ⊢) <;> simp_all

/-- C2 witness: a concrete Delete-All click sequence — entering `Confirm`
from `SystemOptions` forces `No`, and a click with `Yes` set is the step
that emits the action. -/
theorem destructive_gated_by_confirm_witness :
    ((step env0 { initSt with currentState := .systemOptions, selectedMenu := 0 }
        .click).1.confirmOption = .no) ∧
    ({ initSt with currentState := .confirm, menuMode := .deleteConfirm,
                   confirmOption := .yes }.currentState = .confirm ∧
     { initSt with currentState := .confirm, menuMode := .deleteConfirm,
                   confirmOption := .yes }.confirmOption = .yes ∧
     (Event.click = Event.click)) := by
  constructor
  · exact destructive_gated_by_confirm.2 env0
      { initSt with currentState := .systemOptions, selectedMenu := 0 }
      .click (by decide) (by decide)
  · exact destructive_gated_by_confirm.1 env0
      { initSt with currentState := .confirm, menuMode := .deleteConfirm,
                    confirmOption := .yes }
      .click (by decide)

/-! ## C1 -/

/-- C1: `Recording` is entered only from `Idle`; while in `Recording`, every
event other than a Stop-button press (rotations, clicks, holds, Record and
Play presses) leaves the state completely unchanged and executes nothing —
in particular a Record press while recording changes nothing — and a
Stop-button press returns the state to `Idle`. The final conjunct shows the
side condition `isRecording = true` used for the Stop exit is an invariant
of reachable `Recording` states. -/
theorem recording_isolated :
    (∀ (env : Env) (st : St) (e : Event),
        (step env st e).1.currentState = .recording →
        st.currentState = .recording ∨ st.currentState = .idle) ∧
    (∀ (env : Env) (st : St) (e : Event),
        st.currentState = .recording → e ≠ .buttonPress .stop →
        step env st e = (st, [])) ∧
    (∀ (env : Env) (st : St),
        st.currentState = .recording → st.isRecording = true →
        (step env st (.buttonPress .stop)).1.currentState = .idle ∧
        (step env st (.buttonPress .stop)).1.isRecording = false) ∧
    (∀ (env : Env) (st : St) (e : Event),
        (st.currentState = .recording → st.isRecording = true) →
        (step env st e).1.currentState = .recording →
        (step env st e).1.isRecording = true) := by
  have hstep1 : ∀ (env : Env) (st : St) (e : Event),
      (step env st e).1.currentState = .recording →
      st.currentState = .recording ∨ st.currentState = .idle := by
    intro env st e h
    cases e with
    | rotate d =>
        rw [show (step env st (.rotate d)).1 = onEncoderRotate d st from rfl,
          onEncoderRotate_currentState] at h
        exact Or.inl h
    | hold =>
        rcases onEncoderHold_currentState st with h' | h' <;>
          rw [show (step env st .hold).1 = onEncoderHold st from rfl, h'] at h
        · cases h
        · exact Or.inl h
    | click =>
        cases hc : st.currentState <;>
          simp only [step, onEncoderClick, hc, handleSettingsClick, handleCopyFilesClick,
            handleSystemOptionsClick, handleConfirmClick, startCopyOperation,
            loadFilesToCopy] at h <;>
          (try split_ifs at h) <;> simp_all
    | buttonPress b =>
        cases b with
        | record =>
            by_cases hg : st.currentState = .idle ∧ !st.isRecording
            · exact Or.inr hg.1
            · rw [show (step env st (.buttonPress .record)).1
                    = onButtonPress env .record st from rfl] at h
              simp only [onButtonPress, if_neg hg] at h
              exact Or.inl h
        | stop =>
            rw [show (step env st (.buttonPress .stop)).1
                  = onButtonPress env .stop st from rfl] at h
            by_cases hr : st.isRecording
            · simp [onButtonPress, stopRecording, hr] at h
            · simp only [onButtonPress, hr, if_neg] at h
              exact Or.inl (by simpa [hr] using h)
        | play => exact Or.inl h
  have hstep2 : ∀ (env : Env) (st : St) (e : Event),
      st.currentState = .recording → e ≠ .buttonPress .stop →
      step env st e = (st, []) := by
    intro env st e h hne
    cases e with
    | rotate d => simp [step, onEncoderRotate, h]
    | hold => simp [step, onEncoderHold, h]
    | click => simp [step, onEncoderClick, h]
    | buttonPress b =>
        cases b with
        | record => simp [step, onButtonPress, h]
        | stop => exact absurd rfl hne
        | play => simp [step, onButtonPress]
  refine ⟨hstep1, hstep2, fun env st h hr => ?_, fun env st e hinv h => ?_⟩
  · simp [step, onButtonPress, stopRecording, hr]
  · rcases hstep1 env st e h with hrec | hidle
    · have hr := hinv hrec
      cases e with
      | rotate d => simpa [step, onEncoderRotate, hrec] using hr
      | hold => simpa [step, onEncoderHold, hrec] using hr
      | click => simpa [step, onEncoderClick, hrec] using hr
      | buttonPress b =>
          cases b with
          | record => simpa [step, onButtonPress, hrec] using hr
          | stop => simp [step, onButtonPress, stopRecording, hr] at h
          | play => simpa [step, onButtonPress] using hr
    · cases e with
      | rotate d =>
          rw [show (step env st (.rotate d)).1 = onEncoderRotate d st from rfl,
            onEncoderRotate_currentState, hidle] at h
          cases h
      | hold => simp [step, onEncoderHold, hidle] at h
      | click => simp [step, onEncoderClick, hidle] at h ⊢ <;> split_ifs at h <;> simp_all
      | buttonPress b =>
          cases b with
          | record =>
              by_cases hr : st.isRecording
              · simp [step, onButtonPress, hidle, hr] at h
              · by_cases hs : env.spawnOk
                · simp [step, onButtonPress, startRecording, hidle, hr, hs]
                · simp [step, onButtonPress, startRecording, hidle, hr, hs] at h
          | stop =>
              by_cases hr : st.isRecording <;>
                simp [step, onButtonPress, stopRecording, hidle, hr] at h
          | play => simp [step, onButtonPress, hidle] at h

/-! ## C7 -/

/-- Every menu-bearing state has at least one item. -/
theorem menuItemCount_pos (st : St)
    (h : st.currentState = .settings ∨ st.currentState = .copyFiles ∨
         st.currentState = .systemOptions) : 1 ≤ menuItemCount st := by
  rcases h with h | h | h <;> simp [menuItemCount, h] <;> try omega

/-- One rotation in a menu-bearing state keeps the state variant, keeps the
item count, and keeps the cursor inside `[0, itemCount)`. -/
theorem onEncoderRotate_preserved (d : Int) (st : St)
    (hmenu : st.currentState = .settings ∨ st.currentState = .copyFiles ∨
             st.currentState = .systemOptions)
    (h0 : 0 ≤ st.selectedMenu) (h1 : st.selectedMenu < menuItemCount st) :
    (onEncoderRotate d st).currentState = st.currentState ∧
    0 ≤ (onEncoderRotate d st).selectedMenu ∧
    (onEncoderRotate d st).selectedMenu < menuItemCount (onEncoderRotate d st) := by
  have hpos := menuItemCount_pos st hmenu
  rcases hmenu with h | h | h <;>
    simp only [onEncoderRotate, h, adjustSampleRate, adjustChannelCount, navigateMenu,
      menuItemCount] at * <;>
    (try split_ifs) <;> simp_all <;> try omega

/-- C7: in every menu-bearing state (`Settings`, `CopyFiles`,
`SystemOptions`), any finite sequence of `Rotate(±1)` events keeps the
selection cursor inside `[0, itemCount)` when it starts inside, and the
cursor wraps: a rotation past `itemCount - 1` lands on `0`, and — where a
rotation moves the cursor at all, i.e. outside the two rotation-edited
Settings items — a rotation below `0` lands on `itemCount - 1`. -/
theorem menu_cursor_bounds :
    (∀ (env : Env) (st : St) (ds : List Int),
        (st.currentState = .settings ∨ st.currentState = .copyFiles ∨
         st.currentState = .systemOptions) →
        (∀ d ∈ ds, d = 1 ∨ d = -1) →
        0 ≤ st.selectedMenu → st.selectedMenu < menuItemCount st →
        ((ds.foldl (fun s d => (step env s (.rotate d)).1) st).currentState
            = st.currentState ∧
         0 ≤ (ds.foldl (fun s d => (step env s (.rotate d)).1) st).selectedMenu ∧
         (ds.foldl (fun s d => (step env s (.rotate d)).1) st).selectedMenu
            < menuItemCount (ds.foldl (fun s d => (step env s (.rotate d)).1) st))) ∧
    (∀ st : St, (st.currentState = .copyFiles ∨ st.currentState = .systemOptions) →
        st.selectedMenu = 0 →
        (onEncoderRotate (-1) st).selectedMenu = menuItemCount st - 1) ∧
    (∀ st : St, (st.currentState = .settings ∨ st.currentState = .copyFiles ∨
         st.currentState = .systemOptions) →
        st.selectedMenu = menuItemCount st - 1 →
        (onEncoderRotate 1 st).selectedMenu = 0) := by
  refine ⟨?_, ?_, ?_⟩
  · intro env st ds hmenu hds h0 h1
    induction ds generalizing st with
    | nil => exact ⟨rfl, h0, h1⟩
    | cons d ds ih =>
        obtain ⟨hc, h0', h1'⟩ := onEncoderRotate_preserved d st hmenu h0 h1
        have hmenu' : (onEncoderRotate d st).currentState = .settings ∨
            (onEncoderRotate d st).currentState = .copyFiles ∨
            (onEncoderRotate d st).currentState = .systemOptions := by
          rw [hc]; exact hmenu
        have hds' : ∀ x ∈ ds, x = 1 ∨ x = -1 := fun x hx => hds x (by simp [hx])
        have hfold := ih (onEncoderRotate d st) hmenu' hds' h0' h1'
        simp only [List.foldl_cons]
        exact ⟨by rw [show (step env st (.rotate d)).1 = onEncoderRotate d st from rfl,
                  hfold.1, hc],
               by rw [show (step env st (.rotate d)).1 = onEncoderRotate d st from rfl]
                  exact hfold.2.1,
               by rw [show (step env st (.rotate d)).1 = onEncoderRotate d st from rfl]
                  exact hfold.2.2⟩
  · intro st hmenu hsel
    rcases hmenu with h | h <;>
      simp only [onEncoderRotate, h, navigateMenu, menuItemCount, hsel] <;>
      (try split_ifs) <;> simp_all <;> try omega
  · intro st hmenu hsel
    have hpos := menuItemCount_pos st hmenu
    rcases hmenu with h | h | h <;>
      simp only [menuItemCount, h] at hsel hpos <;>
      simp only [onEncoderRotate, h, navigateMenu, menuItemCount, hsel] <;>
      (try split_ifs) <;> simp_all <;> try omega

/-- C7 witness: a concrete rotation sequence in System Options stays in
bounds, and a down-rotation from cursor 0 wraps to the last item. -/
theorem menu_cursor_bounds_witness :
    (([1, -1, -1].foldl (fun s d => (step env0 s (.rotate d)).1) stSys).currentState
        = stSys.currentState ∧
     0 ≤ ([1, -1, -1].foldl (fun s d => (step env0 s (.rotate d)).1) stSys).selectedMenu ∧
     ([1, -1, -1].foldl (fun s d => (step env0 s (.rotate d)).1) stSys).selectedMenu
        < menuItemCount ([1, -1, -1].foldl (fun s d => (step env0 s (.rotate d)).1) stSys)) ∧
    (onEncoderRotate (-1) { initSt with currentState := .systemOptions }).selectedMenu
        = menuItemCount { initSt with currentState := .systemOptions } - 1 :=
  ⟨menu_cursor_bounds.1 env0 stSys [1, -1, -1] (by decide) (by decide) (by decide)
      (by decide),
   menu_cursor_bounds.2.1 { initSt with currentState := .systemOptions }
      (Or.inr rfl) rfl⟩

/-- C1 witness: in a concrete `Recording` state a Record press changes
nothing, and a Stop press returns to `Idle`. -/
theorem recording_isolated_witness :
    step env0 stRecording (.buttonPress .record) = (stRecording, []) ∧
    (step env0 stRecording (.buttonPress .stop)).1.currentState = .idle ∧
    (step env0 stRecording (.buttonPress .stop)).1.isRecording = false := by
  refine ⟨recording_isolated.2.1 env0 stRecording (.buttonPress .record) (by decide)
    (by decide), recording_isolated.2.2.1 env0 stRecording (by decide) (by decide)⟩

/-! ## C6 -/

/-- Equality on every field an event handler ever reads or writes —
everything except `recordStart` and `recordingFile`, which only the render
path consumes. -/
def obsEq (s t : St) : Prop :=
  s.sampleRateIdx = t.sampleRateIdx ∧ s.channelCount = t.channelCount ∧
  s.isRecording = t.isRecording ∧ s.isCopying = t.isCopying ∧
  s.currentState = t.currentState ∧ s.menuMode = t.menuMode ∧
  s.selectedMenu = t.selectedMenu ∧ s.menuScrollOffset = t.menuScrollOffset ∧
  s.confirmOption = t.confirmOption ∧ s.usbMounted = t.usbMounted ∧
  s.allFiles = t.allFiles ∧ s.filesToCopy = t.filesToCopy ∧
  s.copyProgress = t.copyProgress

/-- C6: when the capture-process spawn fails, a Record press from `Idle`
leaves the application in `Idle` with `isRecording` still false, changes no
field any event handler observes, and executes no action; and (second
conjunct) the step function cannot distinguish states agreeing on those
observable fields, so no later event sequence can observe the scratch
timestamp/filename writes a failed start leaves behind. -/
theorem start_recording_failure_safe :
    (∀ (env : Env) (st : St), env.spawnOk = false →
        st.currentState = .idle → st.isRecording = false →
        (step env st (.buttonPress .record)).1.currentState = .idle ∧
        (step env st (.buttonPress .record)).1.isRecording = false ∧
        obsEq (step env st (.buttonPress .record)).1 st ∧
        (step env st (.buttonPress .record)).2 = []) ∧
    (∀ (env : Env) (s t : St) (e : Event), obsEq s t →
        obsEq (step env s e).1 (step env t e).1 ∧
        (step env s e).2 = (step env t e).2) := by
  constructor
  · intro env st hspawn hidle hrec
    refine ⟨?_, ?_, ?_, rfl⟩ <;>
      simp [step, onButtonPress, startRecording, hspawn, hidle, hrec, obsEq]
  · intro env s t e h
    obtain ⟨f1, f2, f3, f4, f5, f6, f7, f8, f9, f10, f11, f12, f13, f14, f15⟩ := s
    obtain ⟨g1, g2, g3, g4, g5, g6, g7, g8, g9, g10, g11, g12, g13, g14, g15⟩ := t
    simp only [obsEq] at h
    obtain ⟨h1, h2, h3, h4, h5, h6, h7, h8, h9, h10, h11, h12, h13⟩ := h
    subst h1; subst h2; subst h3; subst h4; subst h5; subst h6; subst h7
    subst h8; subst h9; subst h10; subst h11; subst h12; subst h13
    cases e with
    | rotate d =>
        constructor
        · cases f7 <;>
            simp only [step, onEncoderRotate, adjustSampleRate, adjustChannelCount,
              navigateMenu, menuItemCount, obsEq] <;>
            (try split_ifs) <;> simp_all
        · rfl
    | hold =>
        constructor
        · simp only [step, onEncoderHold, obsEq] <;> (try split_ifs) <;> simp_all
        · rfl
    | click =>
        cases f7 <;>
          simp only [step, onEncoderClick, handleSettingsClick, handleCopyFilesClick,
            handleSystemOptionsClick, handleConfirmClick, startCopyOperation,
            loadFilesToCopy, obsEq] <;>
          (try split_ifs) <;> simp_all
    | buttonPress b =>
        cases b <;>
          simp only [step, onButtonPress, startRecording, stopRecording, obsEq] <;>
          (try split_ifs) <;> simp_all

/-- C6 witness: a concrete failed start from the initial state. -/
theorem start_recording_failure_safe_witness :
    ((step envFail initSt (.buttonPress .record)).1.currentState = .idle ∧
     (step envFail initSt (.buttonPress .record)).1.isRecording = false ∧
     obsEq (step envFail initSt (.buttonPress .record)).1 initSt ∧
     (step envFail initSt (.buttonPress .record)).2 = []) ∧
    (obsEq (step env0 initSt .click).1 (step env0 initSt .click).1 ∧
     (step env0 initSt .click).2 = (step env0 initSt .click).2) :=
  ⟨start_recording_failure_safe.1 envFail initSt rfl rfl rfl,
   start_recording_failure_safe.2 env0 initSt initSt .click
     ⟨rfl, rfl, rfl, rfl, rfl, rfl, rfl, rfl, rfl, rfl, rfl, rfl, rfl⟩⟩

/-! ## C5 -/

/-- C5, as stated, is false for the three momentary buttons: their sampler
(`ButtonManager.readButton`) fires the callback at the press edge, so a
40 ms press/release pair produces one `ButtonEvent`, not none — the press at
t = 1000 ms fires, and the release at t = 1040 ms merely clears the flag. -/
theorem button_click_hold_claim_cex :
    (mReadButton { pressed := false, lastPress := 0 } 1000 true).2 = true ∧
    (mReadButton { pressed := true, lastPress := 1000 } 1040 false).2 = false := by
  decide

/-- C5 amended: the encoder button alone classifies a press/release pair by
its hold duration `h` (`h < 50 ms` nothing, `50 ms ≤ h < 3000 ms` Click,
`h ≥ 3000 ms` Hold, with nothing emitted at the press edge); each momentary
button instead fires exactly one press event at the press edge — provided
more than 50 ms passed since its own previous registered press — and emits
nothing at release, whatever the hold duration. Debounce state is per
button: each `Button` record carries its own `pressed`/`lastPress`. -/
theorem button_debounce_classification :
    (∀ t0 t h : Nat,
        encReadButton { buttonDown := false, buttonTime := t0 } t true =
          ({ buttonDown := true, buttonTime := t }, none) ∧
        (h < 50 →
          (encReadButton { buttonDown := true, buttonTime := t } (t + h) false).2
            = none) ∧
        (50 ≤ h → h < 3000 →
          (encReadButton { buttonDown := true, buttonTime := t } (t + h) false).2
            = some .click) ∧
        (3000 ≤ h →
          (encReadButton { buttonDown := true, buttonTime := t } (t + h) false).2
            = some .hold)) ∧
    (∀ last t h : Nat, last + 50 < t →
        mReadButton { pressed := false, lastPress := last } t true =
          ({ pressed := true, lastPress := t }, true) ∧
        mReadButton { pressed := true, lastPress := t } (t + h) false =
          ({ pressed := false, lastPress := t }, false)) := by
  constructor
  · intro t0 t h
    refine ⟨by simp [encReadButton], ?_, ?_, ?_⟩ <;>
      simp only [encReadButton, Nat.add_sub_cancel_left] <;>
      intros <;> (try split_ifs) <;> simp_all <;> omega
  · intro last t h hgap
    constructor <;> simp [mReadButton] <;> omega

/-- C5 witness: a 200 ms encoder press yields a Click, and a 40 ms momentary
press/release pair still fires its one press event. -/
theorem button_debounce_classification_witness :
    ((encReadButton { buttonDown := true, buttonTime := 1000 } (1000 + 200) false).2
        = some .click) ∧
    (mReadButton { pressed := false, lastPress := 0 } 100 true =
        ({ pressed := true, lastPress := 100 }, true) ∧
     mReadButton { pressed := true, lastPress := 100 } (100 + 40) false =
        ({ pressed := false, lastPress := 100 }, false)) :=
  ⟨(button_debounce_classification.1 0 1000 200).2.2.1 (by decide) (by decide),
   button_debounce_classification.2 0 100 40 (by decide)⟩

/-! ## C8 -/

/-- C8: the capacity label rounds to the nearest power-of-two unit on the
spec's examples — 512 MB (`512 · 2²⁰` bytes) gives `"512mb"`, 3.7 GB
(`⌊3.7 · 2³⁰⌋` bytes, whole-GB floor 3) gives `"4GB"`, 15.8 GB (floor 15)
gives `"16GB"`, and 2.1 TB (floor 2) gives `"2TB"`. -/
theorem capacity_labels :
    getUSBSize (512 * 1024 * 1024) = "512mb" ∧
    getUSBSize 3972844748 = "4GB" ∧
    getUSBSize 16964120412 = "16GB" ∧
    getUSBSize 2308974418319 = "2TB" := by
  decide

/-! ## C4 -/

/-- Ties-to-even rounding returns the floor or the floor plus one. -/
theorem rheZ_bounds (s : ℚ) : ⌊s⌋ ≤ rheZ s ∧ rheZ s ≤ ⌊s⌋ + 1 := by
  unfold rheZ
  split_ifs <;> omega

/-- Ties-to-even rounding is monotone. -/
theorem rheZ_mono {s₁ s₂ : ℚ} (h : s₁ ≤ s₂) : rheZ s₁ ≤ rheZ s₂ := by
  have hf : ⌊s₁⌋ ≤ ⌊s₂⌋ := Int.floor_le_floor h
  rcases lt_or_eq_of_le hf with hlt | heq
  · have h1 := (rheZ_bounds s₁).2
    have h2 := (rheZ_bounds s₂).1
    omega
  · have hd₁ : Int.fract s₁ = s₁ - ⌊s₁⌋ := rfl
    have hd₂ : Int.fract s₂ = s₂ - ⌊s₂⌋ := rfl
    have hfr : Int.fract s₁ ≤ Int.fract s₂ := by
      rw [hd₁, hd₂, ← heq]
      linarith
    unfold rheZ
    rw [← heq]
    split_ifs <;> first | omega | linarith

/-- `rn53` of a positive rational is positive (its scaled significand is at
least `2^52`). -/
theorem rn53_pos {q : ℚ} (hq : 0 < q) : 0 < rn53 q := by
  rw [rn53, if_neg (not_le.mpr hq)]
  have hlb : (2 : ℚ) ^ (52 : ℤ) ≤ q * 2 ^ (52 - Int.log 2 q) := by
    calc (2 : ℚ) ^ (52 : ℤ)
        = 2 ^ Int.log 2 q * 2 ^ (52 - Int.log 2 q) := by
          rw [← zpow_add₀ (two_ne_zero : (2 : ℚ) ≠ 0)]
          congr 1
          omega
      _ ≤ q * 2 ^ (52 - Int.log 2 q) :=
          mul_le_mul_of_nonneg_right (Int.zpow_log_le_self (by norm_num) hq)
            (le_of_lt (zpow_pos two_pos _))
  have h1 : (1 : ℤ) ≤ rheZ (q * 2 ^ (52 - Int.log 2 q)) := by
    have hfl : (1 : ℤ) ≤ ⌊q * 2 ^ (52 - Int.log 2 q)⌋ := by
      rw [Int.le_floor]
      calc ((1 : ℤ) : ℚ) ≤ (2 : ℚ) ^ (52 : ℤ) := by norm_num
        _ ≤ _ := hlb
    have := (rheZ_bounds (q * 2 ^ (52 - Int.log 2 q))).1
    omega
  have hcast : (0 : ℚ) < (rheZ (q * 2 ^ (52 - Int.log 2 q)) : ℚ) := by
    exact_mod_cast h1
  exact mul_pos hcast (zpow_pos two_pos _)

/-- `rn53` is monotone on positive rationals: within one binade the scaled
significands compare, and across binades the whole binades compare. -/
theorem rn53_mono {q₁ q₂ : ℚ} (h1 : 0 < q₁) (h : q₁ ≤ q₂) :
    rn53 q₁ ≤ rn53 q₂ := by
  have h2 : 0 < q₂ := lt_of_lt_of_le h1 h
  rw [rn53, rn53, if_neg (not_le.mpr h1), if_neg (not_le.mpr h2)]
  have hle : Int.log 2 q₁ ≤ Int.log 2 q₂ := Int.log_mono_right h1 h
  rcases eq_or_lt_of_le hle with heq | hlt
  · rw [← heq]
    have hs : q₁ * 2 ^ (52 - Int.log 2 q₁) ≤ q₂ * 2 ^ (52 - Int.log 2 q₁) :=
      mul_le_mul_of_nonneg_right h (le_of_lt (zpow_pos two_pos _))
    have hc : ((rheZ (q₁ * 2 ^ (52 - Int.log 2 q₁)) : ℤ) : ℚ)
        ≤ ((rheZ (q₂ * 2 ^ (52 - Int.log 2 q₁)) : ℤ) : ℚ) := by
      exact_mod_cast rheZ_mono hs
    exact mul_le_mul_of_nonneg_right hc (le_of_lt (zpow_pos two_pos _))
  · have hs₁ : q₁ * 2 ^ (52 - Int.log 2 q₁) < 2 ^ (53 : ℤ) := by
      calc q₁ * 2 ^ (52 - Int.log 2 q₁)
          < 2 ^ (Int.log 2 q₁ + 1) * 2 ^ (52 - Int.log 2 q₁) :=
            mul_lt_mul_of_pos_right (Int.lt_zpow_succ_log_self (by norm_num) q₁)
              (zpow_pos two_pos _)
        _ = 2 ^ (53 : ℤ) := by
            rw [← zpow_add₀ (two_ne_zero : (2 : ℚ) ≠ 0)]
            congr 1
            omega
    have hfl₁ : rheZ (q₁ * 2 ^ (52 - Int.log 2 q₁)) ≤ 2 ^ (53 : ℕ) := by
      have hb := (rheZ_bounds (q₁ * 2 ^ (52 - Int.log 2 q₁))).2
      have hfloor : ⌊q₁ * 2 ^ (52 - Int.log 2 q₁)⌋ < 2 ^ (53 : ℕ) := by
        rw [Int.floor_lt]
        calc q₁ * 2 ^ (52 - Int.log 2 q₁) < 2 ^ (53 : ℤ) := hs₁
          _ = (((2 ^ (53 : ℕ) : ℤ)) : ℚ) := by norm_num
      omega
    have hs₂ : (2 : ℚ) ^ (52 : ℤ) ≤ q₂ * 2 ^ (52 - Int.log 2 q₂) := by
      calc (2 : ℚ) ^ (52 : ℤ)
          = 2 ^ Int.log 2 q₂ * 2 ^ (52 - Int.log 2 q₂) := by
            rw [← zpow_add₀ (two_ne_zero : (2 : ℚ) ≠ 0)]
            congr 1
            omega
        _ ≤ q₂ * 2 ^ (52 - Int.log 2 q₂) :=
            mul_le_mul_of_nonneg_right (Int.zpow_log_le_self (by norm_num) h2)
              (le_of_lt (zpow_pos two_pos _))
    have hfl₂ : (2 ^ (52 : ℕ) : ℤ) ≤ rheZ (q₂ * 2 ^ (52 - Int.log 2 q₂)) := by
      have hb := (rheZ_bounds (q₂ * 2 ^ (52 - Int.log 2 q₂))).1
      have hfloor : (2 ^ (52 : ℕ) : ℤ) ≤ ⌊q₂ * 2 ^ (52 - Int.log 2 q₂)⌋ := by
        rw [Int.le_floor]
        calc (((2 ^ (52 : ℕ) : ℤ)) : ℚ) = (2 : ℚ) ^ (52 : ℤ) := by norm_num
          _ ≤ _ := hs₂
      omega
    calc (rheZ (q₁ * 2 ^ (52 - Int.log 2 q₁)) : ℚ) * 2 ^ (Int.log 2 q₁ - 52)
        ≤ ((2 ^ (53 : ℕ) : ℤ) : ℚ) * 2 ^ (Int.log 2 q₁ - 52) :=
          mul_le_mul_of_nonneg_right (by exact_mod_cast hfl₁)
            (le_of_lt (zpow_pos two_pos _))
      _ = 2 ^ (Int.log 2 q₁ + 1) := by
          rw [show (((2 ^ (53 : ℕ) : ℤ)) : ℚ) = (2 : ℚ) ^ (53 : ℤ) by norm_num,
            ← zpow_add₀ (two_ne_zero : (2 : ℚ) ≠ 0)]
          congr 1
          omega
      _ ≤ 2 ^ Int.log 2 q₂ := zpow_le_zpow_right₀ (by norm_num) (by omega)
      _ = ((2 ^ (52 : ℕ) : ℤ) : ℚ) * 2 ^ (Int.log 2 q₂ - 52) := by
          rw [show (((2 ^ (52 : ℕ) : ℤ)) : ℚ) = (2 : ℚ) ^ (52 : ℤ) by norm_num,
            ← zpow_add₀ (two_ne_zero : (2 : ℚ) ≠ 0)]
          congr 1
          omega
      _ ≤ (rheZ (q₂ * 2 ^ (52 - Int.log 2 q₂)) : ℚ) * 2 ^ (Int.log 2 q₂ - 52) :=
          mul_le_mul_of_nonneg_right (by exact_mod_cast hfl₂)
            (le_of_lt (zpow_pos two_pos _))

/-- Conversion to binary64 is exact on integers up to `2^52` (their scaled
significand is an integer, so rounding is the identity). -/
theorem rn53_int_exact {n : ℤ} (h1 : 1 ≤ n) (h2 : n ≤ 2 ^ 52) :
    rn53 (n : ℚ) = n := by
  have hq : (0 : ℚ) < (n : ℚ) := by exact_mod_cast h1
  rw [rn53, if_neg (not_le.mpr hq)]
  have he0 : 0 ≤ Int.log 2 ((n : ℚ)) := by
    have := (Int.zpow_le_iff_le_log (b := 2) (by norm_num) hq (x := 0)).mp
      (by simpa using (show (1 : ℚ) ≤ (n : ℚ) by exact_mod_cast h1))
    exact this
  have he52 : Int.log 2 ((n : ℚ)) ≤ 52 := by
    have hlt : (n : ℚ) < 2 ^ (53 : ℤ) := by
      calc (n : ℚ) ≤ ((2 ^ 52 : ℤ) : ℚ) := by exact_mod_cast h2
        _ < 2 ^ (53 : ℤ) := by norm_num
    have := (Int.lt_zpow_iff_log_lt (b := 2) (by norm_num) hq).mp hlt
    omega
  have hs : (n : ℚ) * 2 ^ (52 - Int.log 2 ((n : ℚ)))
      = ((n * 2 ^ (52 - Int.log 2 ((n : ℚ))).toNat : ℤ) : ℚ) := by
    push_cast
    rw [show ((2 : ℚ) ^ (52 - Int.log 2 ((n : ℚ))))
        = (2 : ℚ) ^ (((52 - Int.log 2 ((n : ℚ))).toNat : ℕ) : ℤ) from by
          congr 1
          omega,
      zpow_natCast]
  rw [hs]
  rw [show rheZ ((n * 2 ^ (52 - Int.log 2 ((n : ℚ))).toNat : ℤ) : ℚ)
      = n * 2 ^ (52 - Int.log 2 ((n : ℚ))).toNat from by
        unfold rheZ
        rw [Int.fract_intCast, if_pos (by norm_num : (0 : ℚ) < 1 / 2),
          Int.floor_intCast]]
  push_cast
  rw [mul_assoc,
    show ((2 : ℚ) ^ ((52 - Int.log 2 ((n : ℚ))).toNat : ℕ))
      = (2 : ℚ) ^ (52 - Int.log 2 ((n : ℚ))) from by
        rw [← zpow_natCast]
        congr 1
        omega,
    ← zpow_add₀ (two_ne_zero : (2 : ℚ) ≠ 0),
    show 52 - Int.log 2 ((n : ℚ)) + (Int.log 2 ((n : ℚ)) - 52) = 0 from by omega,
    zpow_zero, mul_one]

/-- Evaluation helper: `rn53 q` at a known binade, floor and below-half
fractional part. -/
theorem rn53_eval {q : ℚ} {e n : ℤ}
    (hq : 0 < q) (hlog : Int.log 2 q = e)
    (hfl : ⌊q * 2 ^ (52 - e)⌋ = n)
    (hfr : Int.fract (q * 2 ^ (52 - e)) < 1 / 2) :
    rn53 q = (n : ℚ) * 2 ^ (e - 52) := by
  rw [rn53, if_neg (not_le.mpr hq), hlog]
  unfold rheZ
  rw [if_pos hfr, hfl]

/-- The progress pipeline is monotone in the completed-file count: every
stage (conversion, division by the fixed converted total, multiplication by
100, the rounding of each, and the final truncation) is monotone. -/
theorem goProgress_mono (c₁ c₂ t : Nat) (ht : 1 ≤ t) (hc : 1 ≤ c₁)
    (h : c₁ ≤ c₂) : goProgress c₁ t ≤ goProgress c₂ t := by
  unfold goProgress
  have ht0 : (0 : ℚ) < rn53 (t : ℚ) := rn53_pos (by exact_mod_cast ht)
  have hc1 : (0 : ℚ) < rn53 (c₁ : ℚ) := rn53_pos (by exact_mod_cast hc)
  have h1 : rn53 (c₁ : ℚ) ≤ rn53 (c₂ : ℚ) :=
    rn53_mono (by exact_mod_cast hc) (by exact_mod_cast h)
  have h2 : rn53 (c₁ : ℚ) / rn53 (t : ℚ) ≤ rn53 (c₂ : ℚ) / rn53 (t : ℚ) := by
    gcongr
  have hq1 : (0 : ℚ) < rn53 (c₁ : ℚ) / rn53 (t : ℚ) := div_pos hc1 ht0
  have h3 := rn53_mono hq1 h2
  have hr1 : (0 : ℚ) < rn53 (rn53 (c₁ : ℚ) / rn53 (t : ℚ)) := rn53_pos hq1
  have h4 : rn53 (rn53 (c₁ : ℚ) / rn53 (t : ℚ)) * 100
      ≤ rn53 (rn53 (c₂ : ℚ) / rn53 (t : ℚ)) * 100 :=
    mul_le_mul_of_nonneg_right h3 (by norm_num)
  have h5 := rn53_mono (mul_pos hr1 (by norm_num)) h4
  exact Int.toNat_le_toNat (Int.floor_le_floor h5)

/-- A complete run lands exactly on 100: the quotient is exactly 1, and 1
and 100 are exactly representable. -/
theorem goProgress_self (t : Nat) (ht : 1 ≤ t) : goProgress t t = 100 := by
  unfold goProgress
  have ht0 : (0 : ℚ) < rn53 (t : ℚ) := rn53_pos (by exact_mod_cast ht)
  rw [div_self (ne_of_gt ht0),
    show rn53 (1 : ℚ) = 1 from by
      simpa using rn53_int_exact (n := 1) (by norm_num) (by norm_num),
    one_mul,
    show rn53 (100 : ℚ) = 100 from by
      simpa using rn53_int_exact (n := 100) (by norm_num) (by norm_num),
    show ((100 : ℚ)) = ((100 : ℤ) : ℚ) by norm_num,
    Int.floor_intCast]
  rfl

/-- The binary64 evaluation undershoots the exact floor at 29 of 100 files:
`float64(29)/float64(100)` rounds to `5224175567749775·2⁻⁵⁴ < 29/100`,
multiplying by 100 rounds to `8162774324609023·2⁻⁴⁸ ≈ 28.999999999999996`,
and truncation gives 28, not 29. -/
theorem goProgress_29_100 : goProgress 29 100 = 28 := by
  unfold goProgress
  have h29 : rn53 ((29 : ℕ) : ℚ) = 29 := by
    have := rn53_int_exact (n := 29) (by norm_num) (by norm_num)
    rw [show (((29 : ℤ)) : ℚ) = ((29 : ℕ) : ℚ) by norm_num] at this
    simpa using this
  have h100 : rn53 ((100 : ℕ) : ℚ) = 100 := by
    have := rn53_int_exact (n := 100) (by norm_num) (by norm_num)
    rw [show (((100 : ℤ)) : ℚ) = ((100 : ℕ) : ℚ) by norm_num] at this
    simpa using this
  rw [h29, h100]
  have hA : Int.log 2 ((29 : ℚ) / 100) = -2 := by
    have hl : (-2 : ℤ) ≤ Int.log 2 ((29 : ℚ) / 100) :=
      (Int.zpow_le_iff_le_log (by norm_num) (by norm_num)).mp (by norm_num)
    have hu : Int.log 2 ((29 : ℚ) / 100) < -1 :=
      (Int.lt_zpow_iff_log_lt (by norm_num) (by norm_num)).mp (by norm_num)
    omega
  have hfl1 : ⌊(29 / 100 : ℚ) * 2 ^ ((52 : ℤ) - (-2))⌋ = 5224175567749775 := by
    rw [Int.floor_eq_iff]
    norm_num
  have hfr1 : Int.fract ((29 / 100 : ℚ) * 2 ^ ((52 : ℤ) - (-2))) < 1 / 2 := by
    rw [show Int.fract ((29 / 100 : ℚ) * 2 ^ ((52 : ℤ) - (-2)))
        = (29 / 100 : ℚ) * 2 ^ ((52 : ℤ) - (-2))
          - ⌊(29 / 100 : ℚ) * 2 ^ ((52 : ℤ) - (-2))⌋ from rfl, hfl1]
    norm_num
  rw [rn53_eval (by norm_num) hA hfl1 hfr1]
  push_cast
  have hB : Int.log 2 ((5224175567749775 : ℚ) * 2 ^ (-54 : ℤ) * 100)
      = 4 := by
    have hl : (4 : ℤ)
        ≤ Int.log 2 ((5224175567749775 : ℚ) * 2 ^ (-54 : ℤ) * 100) :=
      (Int.zpow_le_iff_le_log (by norm_num) (by norm_num)).mp (by norm_num)
    have hu : Int.log 2 ((5224175567749775 : ℚ) * 2 ^ (-54 : ℤ) * 100)
        < 5 :=
      (Int.lt_zpow_iff_log_lt (by norm_num) (by norm_num)).mp (by norm_num)
    omega
  have hfl2 : ⌊(5224175567749775 : ℚ) * 2 ^ (-54 : ℤ) * 100
      * 2 ^ ((52 : ℤ) - 4)⌋ = 8162774324609023 := by
    rw [Int.floor_eq_iff]
    norm_num
  have hfr2 : Int.fract ((5224175567749775 : ℚ) * 2 ^ (-54 : ℤ) * 100
      * 2 ^ ((52 : ℤ) - 4)) < 1 / 2 := by
    rw [show Int.fract ((5224175567749775 : ℚ) * 2 ^ (-54 : ℤ) * 100
          * 2 ^ ((52 : ℤ) - 4))
        = (5224175567749775 : ℚ) * 2 ^ (-54 : ℤ) * 100
          * 2 ^ ((52 : ℤ) - 4)
          - ⌊(5224175567749775 : ℚ) * 2 ^ (-54 : ℤ) * 100
            * 2 ^ ((52 : ℤ) - 4)⌋ from rfl, hfl2]
    norm_num
  rw [rn53_eval (by norm_num) hB hfl2 hfr2]
  push_cast
  rw [show ⌊(8162774324609023 : ℚ) * 2 ^ (-48 : ℤ)⌋ = 28 from by
    rw [Int.floor_eq_iff]
    norm_num]
  rfl

/-- The copy loop runs at most `remaining` iterations. -/
theorem copyLoop_length_le (total : Nat) (cancel : Nat → Bool) :
    ∀ (r i : Nat), (copyLoop total cancel r i).length ≤ r := by
  intro r
  induction r with
  | zero => intro i; simp [copyLoop]
  | succ n ih =>
      intro i
      by_cases hc : cancel i <;> simp [copyLoop, hc]
      exact ih (i + 1)

/-- The `j`-th progress write of the loop started at file `i` is the
binary64 evaluation `goProgress (i+j+1) total`. -/
theorem copyLoop_getD (total : Nat) (cancel : Nat → Bool) :
    ∀ (r i j : Nat), j < (copyLoop total cancel r i).length →
      (copyLoop total cancel r i).getD j 0 = goProgress (i + j + 1) total := by
  intro r
  induction r with
  | zero => intro i j hj; simp [copyLoop] at hj
  | succ n ih =>
      intro i j hj
      by_cases hc : cancel i
      · simp [copyLoop, hc] at hj
      · cases j with
        | zero => simp [copyLoop, hc]
        | succ j =>
            have hj' : j < (copyLoop total cancel n (i + 1)).length := by
              simp [copyLoop, hc] at hj
              omega
            have := ih (i + 1) j hj'
            simp only [copyLoop, if_neg (by simp [hc] : ¬ cancel i = true),
              List.getD_cons_succ]
            rw [this]
            congr 1
            omega

/-- Before every copied file the cancellation flag had been observed clear. -/
theorem copyLoop_cancel_false (total : Nat) (cancel : Nat → Bool) :
    ∀ (r i j : Nat), j < (copyLoop total cancel r i).length →
      cancel (i + j) = false := by
  intro r
  induction r with
  | zero => intro i j hj; simp [copyLoop] at hj
  | succ n ih =>
      intro i j hj
      by_cases hc : cancel i
      · simp [copyLoop, hc] at hj
      · cases j with
        | zero => simpa using (by simpa using hc : cancel i = false)
        | succ j =>
            have hj' : j < (copyLoop total cancel n (i + 1)).length := by
              simp [copyLoop, hc] at hj
              omega
            have := ih (i + 1) j hj'
            simpa [show i + (j + 1) = i + 1 + j from by omega] using this

/-- If the loop stops early, it is exactly because the cancellation flag was
observed set at the next check. -/
theorem copyLoop_stop (total : Nat) (cancel : Nat → Bool) :
    ∀ (r i : Nat), (copyLoop total cancel r i).length < r →
      cancel (i + (copyLoop total cancel r i).length) = true := by
  intro r
  induction r with
  | zero => intro i h; simp [copyLoop] at h
  | succ n ih =>
      intro i h
      by_cases hc : cancel i
      · simpa [copyLoop, hc] using hc
      · have hlen : (copyLoop total cancel (n + 1) i).length
            = (copyLoop total cancel n (i + 1)).length + 1 := by
          simp [copyLoop, hc]
        have h' : (copyLoop total cancel n (i + 1)).length < n := by omega
        have := ih (i + 1) h'
        rw [hlen]
        simpa [show i + ((copyLoop total cancel n (i + 1)).length + 1)
            = i + 1 + (copyLoop total cancel n (i + 1)).length from by omega] using this

/-- An uncancelled loop copies everything. -/
theorem copyLoop_full (total : Nat) (cancel : Nat → Bool) :
    ∀ (r i : Nat), (∀ j, j < r → cancel (i + j) = false) →
      (copyLoop total cancel r i).length = r := by
  intro r
  induction r with
  | zero => intro i _; simp [copyLoop]
  | succ n ih =>
      intro i hall
      have hc : cancel i = false := by simpa using hall 0 (by omega)
      have hall' : ∀ j, j < n → cancel (i + 1 + j) = false := fun j hj => by
        simpa [show i + 1 + j = i + (j + 1) from by omega] using hall (j + 1) (by omega)
      simp [copyLoop, hc, ih (i + 1) hall']

/-- The last progress write of an uncancelled loop of `r` files started at
file `i` is `goProgress (i+r) total`. -/
theorem copyLoop_getLastD (total : Nat) (cancel : Nat → Bool) :
    ∀ (r i d : Nat), 0 < r → (∀ j, j < r → cancel (i + j) = false) →
      (copyLoop total cancel r i).getLastD d = goProgress (i + r) total := by
  intro r
  induction r with
  | zero => intro i d h _; omega
  | succ n ih =>
      intro i d hpos hall
      have hc : cancel i = false := by simpa using hall 0 (by omega)
      cases n with
      | zero => simp [copyLoop, hc]
      | succ m =>
          have hall' : ∀ j, j < m + 1 → cancel (i + 1 + j) = false := fun j hj => by
            simpa [show i + 1 + j = i + (j + 1) from by omega]
              using hall (j + 1) (by omega)
          rw [show copyLoop total cancel (m + 1 + 1) i
                = if cancel i then []
                  else goProgress (i + 1) total ::
                    copyLoop total cancel (m + 1) (i + 1) from rfl,
            if_neg (by simp [hc] : ¬ cancel i = true), List.getLastD_cons,
            ih (i + 1) _ (by omega) hall']
          congr 1
          omega

/-- C4 amended: a copy run over the files selected when the copy starts
(with `cancel i` recording whether the shared `isCopying` flag had been
cleared when it was checked before file `i`): the run always ends back in
`Idle` with the copying flag cleared; an empty selection ends at once with
progress still 0 and no file attempted; otherwise the progress written
after file `j` is the binary64 evaluation
`int(float64(j+1) / float64(total) * 100)` (`goProgress`, which can
undershoot `⌊100 (j+1) / total⌋` by one — see the counterexample), the
cancellation flag is checked before every attempted file and the first set
flag stops the run, the successive progress values are non-decreasing, and
a full uncancelled run ends with progress exactly 100. -/
theorem copy_run_spec (st st1 : St) (sel : List String) (cancel : Nat → Bool)
    (hm : st.usbMounted = true)
    (hst1 : st1 = startCopyOperation st)
    (hsel : sel = selectedFiles st1) :
    ((copyRun sel cancel st1).1.currentState = .idle ∧
     (copyRun sel cancel st1).1.isCopying = false) ∧
    (sel = [] → (copyRun sel cancel st1).1.copyProgress = 0 ∧
       (copyRun sel cancel st1).2.1 = [] ∧ (copyRun sel cancel st1).2.2 = []) ∧
    (∀ j, j < (copyRun sel cancel st1).2.1.length →
       (copyRun sel cancel st1).2.1.getD j 0 = goProgress (j + 1) sel.length) ∧
    (∀ j, j < (copyRun sel cancel st1).2.1.length → cancel j = false) ∧
    ((copyRun sel cancel st1).2.1.length < sel.length →
       cancel (copyRun sel cancel st1).2.1.length = true) ∧
    ((copyRun sel cancel st1).2.2 = sel.take (copyRun sel cancel st1).2.1.length) ∧
    (∀ j k, j ≤ k → k < (copyRun sel cancel st1).2.1.length →
       (copyRun sel cancel st1).2.1.getD j 0 ≤ (copyRun sel cancel st1).2.1.getD k 0) ∧
    ((∀ i, i < sel.length → cancel i = false) → sel ≠ [] →
       (copyRun sel cancel st1).1.copyProgress = 100) := by
  by_cases h0 : sel = []
  · subst h0
    refine ⟨by simp [copyRun],
      fun _ => ⟨by simp [copyRun, hst1, startCopyOperation, hm],
        by simp [copyRun], by simp [copyRun]⟩,
      fun j hj => absurd hj (by simp [copyRun]),
      fun j hj => absurd hj (by simp [copyRun]),
      fun h => absurd h (by simp [copyRun]),
      by simp [copyRun],
      fun j k hjk hk => absurd hk (by simp [copyRun]),
      fun _ hne => absurd rfl hne⟩
  · have hlen : sel.length ≠ 0 := by
      intro hl
      exact h0 (List.length_eq_zero.mp hl)
    have hrun : copyRun sel cancel st1 =
        ({ st1 with isCopying := false,
                    currentState := .idle,
                    copyProgress := (copyLoop sel.length cancel sel.length 0).getLastD
                      st1.copyProgress },
         copyLoop sel.length cancel sel.length 0,
         sel.take (copyLoop sel.length cancel sel.length 0).length) := by
      simp [copyRun, hlen]
    rw [hrun]
    refine ⟨by simp, fun h => absurd h h0, fun j hj => ?_, fun j hj => ?_,
      fun h => ?_, by simp, fun j k hjk hk => ?_, fun hall _ => ?_⟩
    · simpa using copyLoop_getD sel.length cancel sel.length 0 j (by simpa using hj)
    · simpa using copyLoop_cancel_false sel.length cancel sel.length 0 j
        (by simpa using hj)
    · simpa using copyLoop_stop sel.length cancel sel.length 0 (by simpa using h)
    · have hj : j < (copyLoop sel.length cancel sel.length 0).length := by
        simp at hk ⊢
        omega
      rw [show ((copyLoop sel.length cancel sel.length 0 : List Nat)).getD j 0
            = goProgress (0 + j + 1) sel.length
          from copyLoop_getD sel.length cancel sel.length 0 j (by simpa using hj),
        show ((copyLoop sel.length cancel sel.length 0 : List Nat)).getD k 0
            = goProgress (0 + k + 1) sel.length
          from copyLoop_getD sel.length cancel sel.length 0 k (by simpa using hk)]
      exact goProgress_mono (0 + j + 1) (0 + k + 1) sel.length
        (by omega) (by omega) (by omega)
    · have hall' : ∀ j, j < sel.length → cancel (0 + j) = false := by
        simpa using hall
      simp only [St.copyProgress]
      rw [copyLoop_getLastD sel.length cancel sel.length 0 st1.copyProgress
        (by omega) hall']
      simpa using goProgress_self sel.length (Nat.pos_of_ne_zero hlen)

/-- C4, as stated, is false: with 100 files selected and no cancellation
request, the progress written after the 29th file is the binary64 value
`int(float64(29)/float64(100)*100) = 28`, not `⌊100·29/100⌋ = 29` — the
double nearest `29/100` is slightly below it, and multiplying by 100 rounds
to `28.999999999999996…`, which truncates to 28. -/
theorem copy_progress_floor_claim_cex :
    (copyLoop 100 (fun _ => false) 100 0).getD 28 0 = 28 ∧
    100 * (28 + 1) / 100 = 29 ∧
    (copyLoop 100 (fun _ => false) 100 0).getD 28 0 ≠ 100 * (28 + 1) / 100 := by
  have hfull : (copyLoop 100 (fun _ => false) 100 0).length = 100 :=
    copyLoop_full 100 (fun _ => false) 100 0 (fun j _ => rfl)
  have hg : (copyLoop 100 (fun _ => false) 100 0).getD 28 0
      = goProgress (0 + 28 + 1) 100 :=
    copyLoop_getD 100 (fun _ => false) 100 0 28 (by rw [hfull]; omega)
  rw [hg, show (0 + 28 + 1 : Nat) = 29 from rfl, goProgress_29_100]
  refine ⟨rfl, rfl, by decide⟩

/-- A concrete pre-copy state: USB mounted, two recordings, both selected. -/
def stUSB : St :=
  { initSt with usbMounted := true,
                allFiles := ["a.wav", "b.wav"],
                filesToCopy := [("a.wav", true), ("b.wav", true)] }

/-- C4 witness: a concrete uncancelled two-file run ends in `Idle` at
exactly 100 with writes `[50, 100]`. -/
theorem copy_run_spec_witness :
    ((copyRun (selectedFiles (startCopyOperation stUSB)) (fun _ => false)
        (startCopyOperation stUSB)).1.currentState = .idle ∧
     (copyRun (selectedFiles (startCopyOperation stUSB)) (fun _ => false)
        (startCopyOperation stUSB)).1.isCopying = false) ∧
    (copyRun (selectedFiles (startCopyOperation stUSB)) (fun _ => false)
        (startCopyOperation stUSB)).1.copyProgress = 100 := by
  have h := copy_run_spec stUSB (startCopyOperation stUSB)
    (selectedFiles (startCopyOperation stUSB)) (fun _ => false) (by decide) rfl rfl
  exact ⟨h.1, h.2.2.2.2.2.2.2 (fun i _ => rfl) (by decide)⟩

/-! ## C9 -/

/-- Pointwise description of `SetPixel`. -/
theorem SetPixel_get (fb : FB) (x y : Int) (b : Nat) (a c : Int) :
    SetPixel fb x y b a c =
      (if 0 ≤ x ∧ x < 256 ∧ 0 ≤ y ∧ y < 64 ∧ a = x ∧ c = y then b % 16
       else fb a c) := by
  simp only [SetPixel]
  split_ifs <;>
    first
      | rfl
      | (exfalso; omega)
      | (simp only []; split_ifs <;> first | rfl | (exfalso; omega))

/-- Pointwise description of a horizontal `SetPixel` run inside the panel. -/
theorem fillRow_get (b : Nat) :
    ∀ (w : Nat) (fb : FB) (x y a c : Int),
      0 ≤ x → x + w ≤ 256 → 0 ≤ y → y < 64 →
      fillRow fb x y w b a c =
        (if c = y ∧ x ≤ a ∧ a < x + w then b % 16 else fb a c) := by
  intro w
  induction w with
  | zero =>
      intro fb x y a c h1 h2 h3 h4
      rw [show fillRow fb x y 0 b = fb from rfl, if_neg (by omega)]
  | succ n ih =>
      intro fb x y a c h1 h2 h3 h4
      rw [show fillRow fb x y (n + 1) b = fillRow (SetPixel fb x y b) (x + 1) y n b
          from rfl]
      rw [ih (SetPixel fb x y b) (x + 1) y a c (by omega) (by omega) h3 h4]
      rw [SetPixel_get]
      split_ifs <;> first | rfl | (exfalso; omega)

/-- Pointwise description of a vertical `SetPixel` run inside the panel. -/
theorem fillCol_get (b : Nat) :
    ∀ (h : Nat) (fb : FB) (x y a c : Int),
      0 ≤ x → x < 256 → 0 ≤ y → y + h ≤ 64 →
      fillCol fb x y h b a c =
        (if a = x ∧ y ≤ c ∧ c < y + h then b % 16 else fb a c) := by
  intro h
  induction h with
  | zero =>
      intro fb x y a c h1 h2 h3 h4
      rw [show fillCol fb x y 0 b = fb from rfl, if_neg (by omega)]
  | succ n ih =>
      intro fb x y a c h1 h2 h3 h4
      rw [show fillCol fb x y (n + 1) b = fillCol (SetPixel fb x y b) x (y + 1) n b
          from rfl]
      rw [ih (SetPixel fb x y b) x (y + 1) a c h1 h2 (by omega) (by omega)]
      rw [SetPixel_get]
      split_ifs <;> first | rfl | (exfalso; omega)

/-- Pointwise description of the nested fill loop inside the panel. -/
theorem fillRect_get (b : Nat) :
    ∀ (h : Nat) (fb : FB) (x y : Int) (w : Nat) (a c : Int),
      0 ≤ x → x + w ≤ 256 → 0 ≤ y → y + h ≤ 64 →
      fillRect fb x y w h b a c =
        (if x ≤ a ∧ a < x + w ∧ y ≤ c ∧ c < y + h then b % 16 else fb a c) := by
  intro h
  induction h with
  | zero =>
      intro fb x y w a c h1 h2 h3 h4
      rw [show fillRect fb x y w 0 b = fb from rfl, if_neg (by omega)]
  | succ n ih =>
      intro fb x y w a c h1 h2 h3 h4
      rw [show fillRect fb x y w (n + 1) b = fillRect (fillRow fb x y w b) x (y + 1) w n b
          from rfl]
      rw [ih (fillRow fb x y w b) x (y + 1) w a c h1 h2 (by omega) (by omega)]
      rw [fillRow_get b w fb x y a c h1 h2 h3 (by omega)]
      split_ifs <;> first | rfl | (exfalso; omega)

/-- C9, as stated, is false: `DrawProgressBar` does not clamp its fraction.
With fraction 2 on a 4-pixel-wide bar at (0,0), the pixel at (5,1) — beyond
the bar's rectangle — is painted bright (15), while with the clamped
fraction `max 0 (min 1 2) = 1` that pixel stays untouched (0). -/
theorem progress_bar_clamp_cex :
    DrawProgressBar fb0 0 0 4 3 2 5 1 = 15 ∧
    DrawProgressBar fb0 0 0 4 3 (max 0 (min 1 2)) 5 1 = 0 := by
  have h8 : (⌊((4 : Nat) : ℚ) * (2 : ℚ)⌋ : Int) = 8 := by
    rw [show ((4 : Nat) : ℚ) * (2 : ℚ) = ((8 : Int) : ℚ) by norm_num,
      Int.floor_intCast]
  have h4 : (⌊((4 : Nat) : ℚ) * (max 0 (min 1 2) : ℚ)⌋ : Int) = 4 := by
    rw [show ((4 : Nat) : ℚ) * (max 0 (min 1 2) : ℚ) = ((4 : Int) : ℚ) by
        rw [min_eq_left (by norm_num : (1 : ℚ) ≤ 2),
          max_eq_right (by norm_num : (0 : ℚ) ≤ 1)]
        norm_num,
      Int.floor_intCast]
  constructor
  · rw [show DrawProgressBar fb0 0 0 4 3 2
        = fillCol
            (fillCol
              (fillRow
                (fillRow
                  (fillRect (fillRect fb0 0 0 4 3 2) 0 0
                    (⌊((4 : Nat) : ℚ) * (2 : ℚ)⌋).toNat 3 15)
                  0 0 4 8)
                0 (0 + (3 : Int) - 1) 4 8)
              0 0 3 8)
            (0 + (4 : Int) - 1) 0 3 8 from rfl, h8]
    decide
  · rw [show DrawProgressBar fb0 0 0 4 3 (max 0 (min 1 2))
        = fillCol
            (fillCol
              (fillRow
                (fillRow
                  (fillRect (fillRect fb0 0 0 4 3 2) 0 0
                    (⌊((4 : Nat) : ℚ) * (max 0 (min 1 2) : ℚ)⌋).toNat 3 15)
                  0 0 4 8)
                0 (0 + (3 : Int) - 1) 4 8)
              0 0 3 8)
            (0 + (4 : Int) - 1) 0 3 8 from rfl, h4]
    decide

/-- C9 amended: no clamping is performed, but for every fraction already in
`[0,1]` and every rectangle inside the panel (with room for the border),
`DrawProgressBar` renders a 1-pixel border of brightness 8, and inside it a
bright (15) fill occupying exactly the columns below `⌊width · fraction⌋`
over the dim (2) background. -/
theorem progress_bar_render (fb : FB) (x y : Int) (w h : Nat) (p : ℚ)
    (hp0 : 0 ≤ p) (hp1 : p ≤ 1)
    (hx : 0 ≤ x) (hxw : x + w ≤ 256) (hy : 0 ≤ y) (hyh : y + h ≤ 64)
    (hw : 2 ≤ w) (hh : 2 ≤ h) (i j : Nat) (hi : i < w) (hj : j < h) :
    DrawProgressBar fb x y w h p (x + i) (y + j) =
      (if i = 0 ∨ i = w - 1 ∨ j = 0 ∨ j = h - 1 then 8
       else if (i : Int) < ⌊(w : ℚ) * p⌋ then 15 else 2) := by
  have hfw0 : 0 ≤ ⌊(w : ℚ) * p⌋ := Int.floor_nonneg.mpr (by positivity)
  have hfw1 : ⌊(w : ℚ) * p⌋ ≤ (w : Int) := by
    have hle : (w : ℚ) * p ≤ (w : ℚ) := by
      nlinarith [Nat.cast_nonneg (α := ℚ) w]
    calc ⌊(w : ℚ) * p⌋ ≤ ⌊(w : ℚ)⌋ := Int.floor_le_floor hle
      _ = (w : Int) := Int.floor_natCast w
  rw [show DrawProgressBar fb x y w h p
        = fillCol
            (fillCol
              (fillRow
                (fillRow
                  (fillRect (fillRect fb x y w h 2) x y (⌊(w : ℚ) * p⌋).toNat h 15)
                  x y w 8)
                x (y + (h : Int) - 1) w 8)
              x y h 8)
            (x + (w : Int) - 1) y h 8 from rfl]
  rw [fillCol_get 8 h _ (x + (w : Int) - 1) y (x + i) (y + j) (by omega) (by omega)
    hy hyh]
  rw [fillCol_get 8 h _ x y (x + i) (y + j) hx (by omega) hy hyh]
  rw [fillRow_get 8 w _ x (y + (h : Int) - 1) (x + i) (y + j) hx hxw (by omega)
    (by omega)]
  rw [fillRow_get 8 w _ x y (x + i) (y + j) hx hxw hy (by omega)]
  rw [fillRect_get 15 h _ x y (⌊(w : ℚ) * p⌋).toNat (x + i) (y + j) hx (by omega)
    hy hyh]
  rw [fillRect_get 2 h fb x y w (x + i) (y + j) hx hxw hy hyh]
  split_ifs <;> first | rfl | (exfalso; omega)

/-- C9 witness: on a concrete 4×3 bar at fraction 1, the interior pixel in
column 1 lies inside the ⌊4 · 1⌋-column bright fill. -/
theorem progress_bar_render_witness :
    DrawProgressBar fb0 0 0 4 3 1 (0 + (1 : Nat)) (0 + (1 : Nat)) =
      (if (1 : Nat) = 0 ∨ (1 : Nat) = 4 - 1 ∨ (1 : Nat) = 0 ∨ (1 : Nat) = 3 - 1 then 8
       else if ((1 : Nat) : Int) < ⌊((4 : Nat) : ℚ) * 1⌋ then 15 else 2) :=
  progress_bar_render fb0 0 0 4 3 1 zero_le_one le_rfl (by decide) (by decide)
    (by decide) (by decide) (by decide) (by decide) 1 1 (by decide) (by decide)

end PI9696
